import Mathlib

/-!
Verification development for the question-extraction core of the
`online_test` repository.  The definitions below are a shallow embedding of
`src/lib/wordParser.js` (heuristic line-scanning state machine) and
`src/lib/aiParser.js` (chunker, refinement orchestrator and JSON-repair
pipeline), plus the empty-input guard of the `/api/upload/ai` handler in
`src/server.js`.  JavaScript strings are modelled by `String`, a `null`
answer by `""` (the code only tests answers for truthiness, where `null`
and `""` coincide), and machine-side effects by explicit state passing.
-/

namespace OnlineTest

/-! ### Character classes and basic string helpers -/

/-- Whitespace class used for JavaScript's `\s` and `String.prototype.trim`
(the common members: ASCII blanks, NBSP, ideographic space, BOM). -/
def isWS (c : Char) : Bool :=
  c = ' ' || c = '\t' || c = '\x0a' || c = '\x0d' || c = '\x0b' || c = '\x0c' ||
  c = ' ' || c = '　' || c = '﻿'

/-- Trim on the character-list level: drop whitespace from both ends. -/
def trimChars (l : List Char) : List Char :=
  ((l.dropWhile isWS).reverse.dropWhile isWS).reverse

/-- Model of JavaScript `s.trim()`. -/
def jsTrim (s : String) : String := ⟨trimChars s.data⟩

/-- Split a character list at newline characters (model of `s.split('\n')`).
Always returns a non-empty list of pieces, none of which contains `'\n'`. -/
def splitNL : List Char → List (List Char)
  | [] => [[]]
  | c :: rest =>
    match splitNL rest with
    | [] => [[c]]
    | p :: ps => if c = '\x0a' then [] :: p :: ps else (c :: p) :: ps

/-- Model of `text.split('\n')` on strings. -/
def splitLines (s : String) : List String := (splitNL s.data).map (fun l => ⟨l⟩)

/-- Join lines with `'\n'` (inverse direction of `splitLines`). -/
def joinNL : List String → String
  | [] => ""
  | [x] => x
  | x :: y :: ys => x ++ "\x0a" ++ joinNL (y :: ys)

/-- Remove the first occurrence of the substring `pat` from `l`
(model of JavaScript `l.replace(pat, '')` with a string pattern). -/
def replaceFirstSub (pat : List Char) (l : List Char) : List Char :=
  match l with
  | [] => []
  | c :: rest => if pat.isPrefixOf (c :: rest) then (c :: rest).drop pat.length
                 else c :: replaceFirstSub pat rest

/-- Remove every occurrence of the non-empty pattern `p :: ps`
(model of `l.replace(/pat/g, '')`), fuelled so that the definition reduces
by iota (every step consumes at least one character, so `l.length` fuel is
always sufficient). -/
def removeAllSub (p : Char) (ps : List Char) : Nat → List Char → List Char
  | 0, l => l
  | _, [] => []
  | fuel + 1, c :: rest =>
    if (p :: ps).isPrefixOf (c :: rest) then removeAllSub p ps fuel (rest.drop ps.length)
    else c :: removeAllSub p ps fuel rest

/-- Remove every occurrence of the substring `pat` from `s`. -/
def removeAll (pat : String) (s : String) : String :=
  match pat.data with
  | [] => s
  | p :: ps => ⟨removeAllSub p ps s.data.length s.data⟩

/-- `pre` is a prefix of `s` (model of JavaScript `s.startsWith(pre)`). -/
def strStartsWith (s pre : String) : Bool := pre.data.isPrefixOf s.data

/-- `suf` is a suffix of `s` (model of JavaScript `s.endsWith(suf)`). -/
def strEndsWith (s suf : String) : Bool := suf.data.reverse.isPrefixOf s.data.reverse

/-- Index of the last occurrence of `c` in `l` (model of `lastIndexOf`). -/
def lastIdxOf (c : Char) : List Char → Option Nat
  | [] => none
  | a :: rest =>
    match lastIdxOf c rest with
    | some n => some (n + 1)
    | none => if a = c then some 0 else none

/-- Case-insensitive prefix match; returns the remainder after the prefix. -/
def matchPreCI : List Char → List Char → Option (List Char)
  | [], l => some l
  | _ :: _, [] => none
  | p :: ps, c :: cs => if p.toLower = c.toLower then matchPreCI ps cs else none

/-! ### Data model (section 3 of the spec) -/

/-- Question type.  The source uses the strings
`未知 / 判断题 / 多选题 / 单选题 / 简答题`. -/
inductive QType where
  | unknown
  | judgment
  | multi
  | single
  | short
  deriving DecidableEq, Repr

/-- An option of a choice question (a `label`/`content` pair). -/
structure QOption where
  label : String
  content : String
  deriving DecidableEq, Repr

/-- A question record as built by `parseWordToQuestions`.
`answer = ""` models the JavaScript `null` (both are falsy). -/
structure Question where
  id : Nat
  title : String
  options : List QOption
  answer : String
  type : QType
  deriving DecidableEq, Repr

/-! ### Pattern library of `wordParser.js` -/

/-- Separators accepted after a leading question number
(`questionNumberRegex = /^(\d+)[.、\)）\s]/`). -/
def numSep (c : Char) : Bool :=
  c = '.' || c = '、' || c = ')' || c = '）' || isWS c

/-- Test of `questionNumberRegex` on a line. -/
def questionNumberTestL (l : List Char) : Bool :=
  match l.span Char.isDigit with
  | (ds, c :: _) => !ds.isEmpty && numSep c
  | _ => false

/-- `line.replace(questionNumberRegex, '')`: drop the digits and the single
separator character of the first match (identity if there is no match). -/
def stripNumMarkL (l : List Char) : List Char :=
  match l.span Char.isDigit with
  | (ds, c :: rest) => if !ds.isEmpty && numSep c then rest else l
  | _ => l

/-- Bullet glyphs admitted before an option label
(note that the lowercase letter `o` is one of them). -/
def isBullet (c : Char) : Bool :=
  c = 'o' || c = '•' || c = '·' || c = '*' || c = '◦' || c = '▪' || c = '▫' ||
  c = '■' || c = '□' || c = '●' || c = '○' || c = '◆' || c = '◇' || c = '★' || c = '☆'

/-- Letters A-F, case-insensitively. -/
def isAFci (c : Char) : Bool :=
  ('A' ≤ c && c ≤ 'F') || ('a' ≤ c && c ≤ 'f')

/-- Separators accepted after an option label
(`[.、\)）:：\s]` in `optionStartRegex`). -/
def optSep (c : Char) : Bool :=
  c = '.' || c = '、' || c = ')' || c = '）' || c = ':' || c = '：' || isWS c

/-- Match of `optionStartRegex` at the start of a line: optional bullet and
whitespace, a letter A-F, one separator.  Returns the (original-case) label
and the length of the whole match. -/
def optStartMatch (l : List Char) : Option (Char × Nat) :=
  let core : List Char → Option (Char × Nat) := fun l' =>
    match l' with
    | a :: c :: _ => if isAFci a && optSep c then some (a, 2) else none
    | _ => none
  match l with
  | [] => none
  | b :: rest =>
    if isBullet b then
      let ws := rest.takeWhile isWS
      (core (rest.drop ws.length)).map (fun p => (p.1, p.2 + 1 + ws.length))
    else core l

/-- `isOptionLine` of the source. -/
def isOptionLine (s : String) : Bool := (optStartMatch s.data).isSome

/-- Separators after an answer marker (`[:：\s]`). -/
def ansSep (c : Char) : Bool := c = ':' || c = '：' || isWS c

/-- One alternative of `answerRegex`: case-insensitive prefix `pat`, then
`[:：\s]*(.+)$` with the usual greedy-but-backtracking capture (at least one
character must remain for the capture group). -/
def altCapture (pat : String) (l : List Char) : Option (List Char) :=
  match matchPreCI pat.data l with
  | none => none
  | some rest =>
    if rest.isEmpty then none
    else
      let j := min (rest.takeWhile ansSep).length (rest.length - 1)
      some (rest.drop j)

/-- Captured raw-answer text of
`answerRegex = /^(?:答案|Answer|答|正确答案)[:：\s]*(.+)$/i`
(alternatives tried in source order). -/
def answerCapture (l : List Char) : Option (List Char) :=
  (altCapture "答案" l) <|> (altCapture "Answer" l) <|>
  (altCapture "答" l) <|> (altCapture "正确答案" l)

/-- Symbols admitted inside a judgment mark
(`[√×✓✗TFtf对错是否YyNn]`). -/
def judgeSym (c : Char) : Bool :=
  c = '√' || c = '×' || c = '✓' || c = '✗' || c = 'T' || c = 'F' || c = 't' || c = 'f' ||
  c = '对' || c = '错' || c = '是' || c = '否' || c = 'Y' || c = 'y' || c = 'N' || c = 'n'

/-- Symbols counted as a positive judgment (`/[√✓TtYy对是]/`). -/
def judgeSymTrue (c : Char) : Bool :=
  c = '√' || c = '✓' || c = 'T' || c = 't' || c = 'Y' || c = 'y' || c = '对' || c = '是'

def openPar (c : Char) : Bool := c = '(' || c = '（'

def closePar (c : Char) : Bool := c = ')' || c = '）'

/-- Match of `judgementMarkRegex = /[\(（]\s*(sym)\s*[\)）]\s*$/` against the
end of `l`.  Returns `(text before the match, matched text, symbol)`.  The
match region is unique because it must end at the end of the string and
contains exactly one opening parenthesis. -/
def judgeMarkSplit (l : List Char) : Option (List Char × List Char × Char) :=
  let r := l.reverse
  match r.dropWhile isWS with
  | [] => none
  | cp :: r2 =>
    if closePar cp then
      match r2.dropWhile isWS with
      | [] => none
      | sy :: r4 =>
        if judgeSym sy then
          match r4.dropWhile isWS with
          | [] => none
          | op :: r6 =>
            if openPar op then some (r6.reverse, l.drop r6.length, sy) else none
        else none
    else none

/-- Test of `judgementMarkRegex` on a line. -/
def judgeMarkTest (s : String) : Bool := (judgeMarkSplit s.data).isSome

/-- CJK numerals of `chapterRegex`. -/
def isCJKNum (c : Char) : Bool :=
  c = '一' || c = '二' || c = '三' || c = '四' || c = '五' || c = '六' ||
  c = '七' || c = '八' || c = '九' || c = '十'

/-- Test of
`chapterRegex = /^(?:第[一二三四五六七八九十\d]+章|[一二三四五六七八九十]、|第\d+节)/`. -/
def chapterTest (s : String) : Bool :=
  match s.data with
  | [] => false
  | c :: rest =>
    if c = '第' then
      (match rest.span (fun d => isCJKNum d || d.isDigit) with
       | (ds, e :: _) => !ds.isEmpty && e = '章'
       | _ => false) ||
      (match rest.span Char.isDigit with
       | (ds, e :: _) => !ds.isEmpty && e = '节'
       | _ => false)
    else
      match rest with
      | d :: _ => isCJKNum c && d = '、'
      | [] => false

/-! ### Type Inferencer (`inferQuestionType` in `wordParser.js`) -/

/-- Lower-case a string character-wise (model of `toLowerCase` on the
alphabets that occur in the vocabulary below). -/
def strLower (s : String) : String := ⟨s.data.map Char.toLower⟩

/-- Model of `toUpperCase` for the letter answers handled here. -/
def strUpper (s : String) : String := ⟨s.data.map Char.toUpper⟩

/-- `ans.match(/^[√×✓✗]$/) || ans.match(/^(正确|错误|对|错|是|否|T|F|True|False)$/i)`. -/
def isJudgeVocab (s : String) : Bool :=
  (s = "√" || s = "×" || s = "✓" || s = "✗") ||
  (strLower s = "正确" || strLower s = "错误" || strLower s = "对" || strLower s = "错" ||
   strLower s = "是" || strLower s = "否" || strLower s = "t" || strLower s = "f" ||
   strLower s = "true" || strLower s = "false")

/-- `ans.match(/^(√|✓|正确|对|是|T|True)$/i)`. -/
def isTrueVocab (s : String) : Bool :=
  strLower s = "√" || strLower s = "✓" || strLower s = "正确" || strLower s = "对" ||
  strLower s = "是" || strLower s = "t" || strLower s = "true"

/-- `ans.match(/^(×|✗|错误|错|否|F|False)$/i)`. -/
def isFalseVocab (s : String) : Bool :=
  strLower s = "×" || strLower s = "✗" || strLower s = "错误" || strLower s = "错" ||
  strLower s = "否" || strLower s = "f" || strLower s = "false"

/-- `ans.match(/^[A-F]{2,}$/i)`. -/
def isMultiAns (s : String) : Bool := 2 ≤ s.length && s.data.all isAFci

/-- `ans.match(/^[A-F]$/i)`. -/
def isSingleAns (s : String) : Bool := s.length = 1 && s.data.all isAFci

/-- The Type Inferencer, translated from `inferQuestionType` in
`wordParser.js` lines 39-75: a no-op on questions whose type is already
concrete, otherwise a cascade over the raw answer. -/
def inferQuestionType (q : Question) : Question :=
  if q.type ≠ QType.unknown then q
  else
    let ans := q.answer
    if isJudgeVocab ans then
      let q1 := { q with type := QType.judgment }
      if isTrueVocab ans then { q1 with answer := "正确" }
      else if isFalseVocab ans then { q1 with answer := "错误" }
      else q1
    else if isMultiAns ans then { q with type := QType.multi, answer := strUpper ans }
    else if isSingleAns ans then { q with type := QType.single, answer := strUpper ans }
    else if 10 < ans.length || (q.options.isEmpty && 0 < ans.length) then
      { q with type := QType.short }
    else if !q.options.isEmpty then { q with type := QType.single }
    else { q with type := QType.short }

/-- Modelled from the spec's wording of claim C2: the Type Inferencer
"assigns type and normalizes the answer by the first matching rule in this
order".  This definition is written from the claim sentences and compared
against `inferQuestionType` (which is translated from the source). -/
def inferTypeSpec (q : Question) : Question :=
  let ans := q.answer
  if isJudgeVocab ans then
    { q with type := QType.judgment,
             answer := if isTrueVocab ans then "正确" else "错误" }
  else if isMultiAns ans then { q with type := QType.multi, answer := strUpper ans }
  else if isSingleAns ans then { q with type := QType.single, answer := strUpper ans }
  else if 10 < ans.length || (q.options.isEmpty && 0 < ans.length) then
    { q with type := QType.short }
  else if !q.options.isEmpty then { q with type := QType.single }
  else { q with type := QType.short }

/-- `extractJudgementAnswer` of `wordParser.js` lines 77-91: for a judgment
question with no captured answer, extract the judgment-mark suffix from the
title, set the canonical answer, remove the first occurrence of the matched
text from the title and trim. -/
def extractJudgementAnswer (q : Question) : Question :=
  if q.type ≠ QType.judgment then q
  else if q.answer ≠ "" then q
  else
    match judgeMarkSplit q.title.data with
    | none => q
    | some (_, matched, sy) =>
      { q with answer := if judgeSymTrue sy then "正确" else "错误",
               title := jsTrim ⟨replaceFirstSub matched q.title.data⟩ }

/-! ### Option-line splitting (`parseOptions` in `wordParser.js`) -/

/-- One attempt of the global option-marker regex
`/(?:^|\s)(?:[bullet]\s*)?([A-F])[.、\)）:：\s]/gi` at the current position.
`first` is true at string start, where the `^` branch applies; elsewhere the
marker must be preceded by a whitespace character that is part of the match. -/
def optMarkAt (first : Bool) (l : List Char) : Option (Char × Nat) :=
  let wsBranch : Option (Char × Nat) :=
    match l with
    | c :: rest =>
      if isWS c then (optStartMatch rest).map (fun p => (p.1, p.2 + 1)) else none
    | [] => none
  if first then (optStartMatch l) <|> wsBranch else wsBranch

/-- Fuelled scan for all matches of the global option-marker regex,
recording `(start index, match length, label)` and resuming after each
match (the fuel `l.length` is always sufficient, as every step consumes at
least one character). -/
def findOptMarksF : Nat → List Char → Nat → Bool → List (Nat × Nat × Char)
  | 0, _, _, _ => []
  | _, [], _, _ => []
  | fuel + 1, l@(_ :: rest), pos, first =>
    match optMarkAt first l with
    | some (lb, n) => (pos, n, lb) :: findOptMarksF fuel (l.drop n) (pos + n) false
    | none => findOptMarksF fuel rest (pos + 1) false

def findOptMarks (l : List Char) : List (Nat × Nat × Char) :=
  findOptMarksF l.length l 0 true

/-- Strip regex `/^(?:[bullet]\s*)?[A-F][.、\)）:：\s]+/i` from the front of
a segment (identity if it does not match). -/
def stripOptMarker (l : List Char) : List Char :=
  let core : List Char → Option (List Char) := fun l' =>
    match l' with
    | a :: rest =>
      if isAFci a then
        let seps := rest.takeWhile optSep
        if seps.isEmpty then none else some (rest.drop seps.length)
      else none
    | [] => none
  let res :=
    match l with
    | b :: rest => if isBullet b then core (rest.dropWhile isWS) else core l
    | [] => none
  match res with
  | some r => r
  | none => l

/-- Characters of `l` strictly between positions `s` and `e`
(model of `line.substring(s, e)`). -/
def sliceStr (l : List Char) (s e : Nat) : List Char := (l.take e).drop s

/-- Segment splitting used when several markers occur in one line: each
marker opens a segment that runs to the next marker (or to the end), the
segment is trimmed, the marker prefix is stripped and trimmed again. -/
def optSegs (l : List Char) : List (Nat × Nat × Char) → List QOption
  | [] => []
  | (st, _, lb) :: rest =>
    let e := match rest with
      | (st2, _, _) :: _ => st2
      | [] => l.length
    let fullText := trimChars (sliceStr l st e)
    ⟨⟨[lb.toUpper]⟩, ⟨trimChars (stripOptMarker fullText)⟩⟩ :: optSegs l rest

/-- `parseOptions` of `wordParser.js` lines 101-127. -/
def parseOptions (s : String) : List QOption :=
  let l := s.data
  match findOptMarks l with
  | [] => []
  | [_] =>
    match optStartMatch l with
    | some (lb, n) => [⟨⟨[lb.toUpper]⟩, jsTrim ⟨l.drop n⟩⟩]
    | none => []
  | ms => optSegs l ms

/-! ### Heuristic state machine (`parseWordToQuestions` main loop) -/

/-- Classification of the previous line (`lastLineType` in the source). -/
inductive LineKind where
  | unknown
  | answer
  | option
  | question
  deriving DecidableEq, Repr

/-- Loop state: emitted questions, the question under construction,
the previous line's classification and the judgment-mark flag. -/
structure PState where
  questions : List Question
  current : Option Question
  lastKind : LineKind
  lastJudge : Bool
  deriving DecidableEq, Repr

def initState : PState := ⟨[], none, LineKind.unknown, false⟩

/-- The finalize routine applied by `pushCurrentQuestion` to the question
under construction before it is appended to the output. -/
def finalizeQ (q : Question) : Question :=
  let q1 := extractJudgementAnswer (inferQuestionType q)
  { q1 with title := jsTrim q1.title }

/-- `pushCurrentQuestion` of `wordParser.js` lines 30-37. -/
def pushCurrentQuestion (st : PState) : PState :=
  match st.current with
  | none => st
  | some q => { st with questions := st.questions ++ [finalizeQ q], current := none }

/-- Ordered type-label alternatives: strip the first matching alternative
and the following `[：:、\s]*` separators. -/
def labelSep (c : Char) : Bool := c = '：' || c = ':' || c = '、' || isWS c

def stripAfterAlt : List String → List Char → Option (List Char)
  | [], _ => none
  | a :: rest, t =>
    match matchPreCI a.data t with
    | some r => some (r.dropWhile labelSep)
    | none => stripAfterAlt rest t

/-- Explicit type-label recognition of lines 175-189: the label groups in
source order, falling back to `判断题` when the line carries a judgment
mark, and `未知` otherwise. -/
def applyTypeLabel (t : List Char) (hasJM : Bool) : QType × List Char :=
  match stripAfterAlt ["判断题", "判断", "是非题"] t with
  | some r => (QType.judgment, r)
  | none =>
    match stripAfterAlt ["多选题", "多选", "多项选择题"] t with
    | some r => (QType.multi, r)
    | none =>
      match stripAfterAlt ["单选题", "单选", "选择题"] t with
      | some r => (QType.single, r)
      | none =>
        match stripAfterAlt ["简答题", "问答题", "填空题"] t with
        | some r => (QType.short, r)
        | none => if hasJM then (QType.judgment, t) else (QType.unknown, t)

/-- One iteration of the main loop of `parseWordToQuestions`
(lines 129-211), for a single pre-trimmed non-empty line. -/
def stepLine (st : PState) (line : String) : PState :=
  if chapterTest line then st
  else
    match answerCapture line.data with
    | some cap =>
      { st with current := st.current.map (fun q => { q with answer := jsTrim ⟨cap⟩ }),
                lastKind := LineKind.answer, lastJudge := false }
    | none =>
      if isOptionLine line then
        { st with current := st.current.map
                    (fun q => { q with options := q.options ++ parseOptions line }),
                  lastKind := LineKind.option, lastJudge := false }
      else
        let hasNum := questionNumberTestL line.data
        let hasJM := judgeMarkTest line
        if hasNum ∨ st.lastKind = LineKind.answer ∨ (hasJM ∧ st.lastJudge) ∨
           st.current = none then
          let st1 := pushCurrentQuestion st
          let title0 : List Char :=
            if hasNum then trimChars (stripNumMarkL line.data) else line.data
          let tl := applyTypeLabel title0 hasJM
          { st1 with
              current := some ⟨st1.questions.length + 1, ⟨tl.2⟩, [], "", tl.1⟩,
              lastKind := LineKind.question, lastJudge := hasJM }
        else
          match st.current with
          | none => st
          | some q =>
            if hasJM then
              { st with current := some { q with title := q.title ++ " " ++ line,
                                                  type := QType.judgment },
                        lastJudge := true }
            else
              { st with current := some { q with title := q.title ++ " " ++ line } }

/-- Run the state machine over a sequence of pre-trimmed non-empty lines
and finalize the last in-progress question. -/
def processLines (lines : List String) : List Question :=
  (pushCurrentQuestion (lines.foldl stepLine initState)).questions

/-- `parseWordToQuestions` minus the external `.docx` text extraction:
split into lines, trim, drop empty lines, run the state machine. -/
def parseWordToQuestions (text : String) : List Question :=
  processLines (((splitLines text).map jsTrim).filter (fun l => l ≠ ""))

/-! ### Text Chunker (`splitTextIntoChunks` in `aiParser.js` lines 233-266) -/

/-- `newQuestionRegex = /^(\d+)[.、\)）]/` tested on the trimmed line
(note: unlike the word-parser marker, whitespace is not a separator here). -/
def startsNumberedChunk (s : String) : Bool :=
  match (jsTrim s).data.span Char.isDigit with
  | (ds, c :: _) => !ds.isEmpty && (c = '.' || c = '、' || c = ')' || c = '）')
  | _ => false

/-- The accumulation loop of `splitTextIntoChunks`, with the current buffer
as an explicit argument. -/
def chunkLoop (target : Nat) : String → List String → List String
  | cur, [] => if 0 < (jsTrim cur).length then [cur] else []
  | cur, line :: rest =>
    let pros := cur ++ (if cur = "" then "" else "\x0a") ++ line
    if pros.length < target then chunkLoop target pros rest
    else if startsNumberedChunk line || 3 * target < 2 * pros.length then
      (if 0 < (jsTrim cur).length then [cur] else []) ++ chunkLoop target line rest
    else chunkLoop target pros rest

/-- `splitTextIntoChunks(text, targetSize)`.  The JavaScript condition
`prospectiveChunk.length > targetSize * 1.5` is rendered as
`3 * target < 2 * pros.length`, which is equivalent on integer lengths. -/
def splitTextIntoChunks (text : String) (target : Nat) : List String :=
  chunkLoop target "" (splitLines text)

/-- Parallel version of `chunkLoop` whose buffer is the list of lines it was
built from; used to prove that every chunk is a join of a contiguous run of
source lines. -/
def chunkLoopL (target : Nat) : List String → List String → List (List String)
  | cbuf, [] => if 0 < (jsTrim (joinNL cbuf)).length then [cbuf] else []
  | cbuf, line :: rest =>
    let pbuf := if joinNL cbuf = "" then [line] else cbuf ++ [line]
    if (joinNL pbuf).length < target then chunkLoopL target pbuf rest
    else if startsNumberedChunk line || 3 * target < 2 * (joinNL pbuf).length then
      (if 0 < (jsTrim (joinNL cbuf)).length then [cbuf] else []) ++
        chunkLoopL target [line] rest
    else chunkLoopL target pbuf rest

/-- `SlicesOf lines segs`: the segments `segs` are pairwise-disjoint
contiguous slices of `lines`, appearing in source order. -/
inductive SlicesOf : List String → List (List String) → Prop where
  | nil : ∀ l, SlicesOf l []
  | cons : ∀ (pre seg rest : List String) (segs : List (List String)),
      SlicesOf rest segs → SlicesOf (pre ++ (seg ++ rest)) (seg :: segs)

/-! ### AI path: refinement orchestrator (`parseWithAI` in `aiParser.js`) -/

/-- Question shape produced by the refinement client (the JSON elements);
the type is a free string here because it arrives from the external model. -/
structure AIQuestion where
  title : String
  type : String
  options : List QOption
  answer : String
  explanation : String
  deriving DecidableEq, Repr

/-- Per-batch normalization (lines 197-204): judgment questions with a
non-empty title get their judgment-mark suffix stripped
(`q.title.replace(judgeRegex, '').trim()`; the regex match, if any, always
runs to the end of the title). -/
def stripJudgeSuffixAI (t : String) : String :=
  match judgeMarkSplit t.data with
  | some (pre, _, _) => jsTrim ⟨pre⟩
  | none => jsTrim t

def normalizeBatch (b : List AIQuestion) : List AIQuestion :=
  b.map fun q =>
    if q.type = "判断题" ∧ q.title ≠ "" then { q with title := stripJudgeSuffixAI q.title }
    else q

/-- The degraded placeholder synthesized when both refinement attempts for a
chunk fail (lines 209-215). -/
def degradedQuestion (chunkText : String) : AIQuestion :=
  { title := "【解析失败片段】" ++ ⟨chunkText.data.take 50⟩ ++ "...",
    type := "简答题",
    options := [],
    answer := "AI 解析失败，请手动检查原始内容：\x0a" ++ chunkText,
    explanation := "系统错误" }

/-- Per-chunk control flow of the orchestrator (lines 187-216), with the
refinement client abstracted as an oracle `refine chunkIdx attemptIdx`
(`none` models a rejected promise).  Returns the questions contributed by
the chunk together with the list of attempt indices actually invoked. -/
def processChunk (refine : Nat → Nat → Option (List AIQuestion)) (i : Nat)
    (chunkText : String) : List AIQuestion × List Nat :=
  match refine i 0 with
  | some b => (normalizeBatch b, [0])
  | none =>
    match refine i 1 with
    | some b => (normalizeBatch b, [0, 1])
    | none => ([degradedQuestion chunkText], [0, 1])

/-- The per-chunk question batches, in chunk order. -/
def chunkResults (refine : Nat → Nat → Option (List AIQuestion))
    (chunks : List String) : List (List AIQuestion) :=
  chunks.enum.map fun ic => (processChunk refine ic.1 ic.2).1

/-- `parseWithAI` after the configuration and input-type guards: chunk the
document and merge the per-chunk results in order.  The function is total
in the oracle: a doubly-failing chunk contributes its degraded placeholder
instead of raising. -/
def parseWithAI (refine : Nat → Nat → Option (List AIQuestion))
    (fullText : String) : List AIQuestion :=
  (chunkResults refine (splitTextIntoChunks fullText 1500)).flatten

/-- The `/api/upload/ai` handler's empty-input guard composed with
`parseWithAI` (`server.js` lines 188-197): the extracted text is fatal only
when it is falsy, i.e. the empty string. -/
def uploadAIExtract (refine : Nat → Nat → Option (List AIQuestion))
    (fullText : String) : Except String (List AIQuestion) :=
  if fullText = "" then Except.error "文档内容为空"
  else Except.ok (parseWithAI refine fullText)

/-! ### Refinement Client response repair
(`refineQuestionsWithAI` in `aiParser.js`, lines 100-137).
`JSON.parse` is the host runtime's parser; the pipeline is therefore
parameterized by an abstract parser `parse : String → Option Bool` where
`none` models a parse exception and `some b` a successful parse of a value
whose array-ness is `b`.  A concrete executable JSON syntax checker
`jsonValid` is provided below to instantiate it. -/

/-- Stage-1 preprocessing: remove every occurrence of ```` ```json ````,
then every occurrence of ```` ``` ````, then trim. -/
def stripFences (s : String) : String :=
  jsTrim (removeAll "```" (removeAll "```json" s))

/-- Stage-2 repair, part 1: replace full-width quotation marks by `"`. -/
def fixQuotes (s : String) : String :=
  ⟨s.data.map (fun c => if c = '“' ∨ c = '”' then '\x22' else c)⟩

def isIdentChar (c : Char) : Bool := c.isAlpha || c.isDigit || c = '_'

/-- Stage-2 repair, part 2: the global replace
`/([\x7b,]\s*)([a-zA-Z0-9_]+)(\s*:)/g` with `'$1"$2"$3'`, quoting bare
identifier keys; scanning resumes after each replaced region. -/
def quoteBareKeysF : Nat → List Char → List Char
  | 0, l => l
  | _, [] => []
  | fuel + 1, c :: rest =>
    if c = '\x7b' ∨ c = ',' then
      let ws1 := rest.takeWhile isWS
      let r1 := rest.drop ws1.length
      let idt := r1.takeWhile isIdentChar
      let r2 := r1.drop idt.length
      let ws2 := r2.takeWhile isWS
      match r2.drop ws2.length with
      | ':' :: r4 =>
        if idt.isEmpty then c :: quoteBareKeysF fuel rest
        else c :: (ws1 ++ ('\x22' :: idt) ++ ('\x22' :: ws2) ++ (':' :: quoteBareKeysF fuel r4))
      | _ => c :: quoteBareKeysF fuel rest
    else c :: quoteBareKeysF fuel rest

/-- A fuel of `l.length` always suffices: every scan step consumes at least
one input character. -/
def quoteBareKeys (s : String) : String := ⟨quoteBareKeysF s.data.length s.data⟩

/-- Trace of the repair pipeline: which parse stages were attempted (in
order), and the result of the successful parse, if any. -/
structure RepairResult where
  attempted : List Nat
  value : Option Bool
  deriving DecidableEq, Repr

/-- The cascading try/catch chain of `refineQuestionsWithAI` lines 102-133.
Stage 1 parses the fence-stripped content; stage 2 the quote/key-repaired
content; stage 3 appends `]`, but only when the trimmed stage-2 content
starts with `[` and does not end with `]`; stage 4 truncates at the last
`\x7d` (only when one exists at positive index) and closes the array.
Stages 3 and 4 live inside the bracket-condition branch: a content that
fails stage 2 and does not satisfy the bracket condition is rethrown
immediately. -/
def repairPipeline (parse : String → Option Bool) (raw : String) : RepairResult :=
  let content := stripFences raw
  match parse content with
  | some v => ⟨[1], some v⟩
  | none =>
    let fixed := quoteBareKeys (fixQuotes content)
    match parse fixed with
    | some v => ⟨[1, 2], some v⟩
    | none =>
      if strStartsWith (jsTrim fixed) "[" ∧ ¬ strEndsWith (jsTrim fixed) "]" then
        let fixed2 := fixed ++ "]"
        match parse fixed2 with
        | some v => ⟨[1, 2, 3], some v⟩
        | none =>
          match lastIdxOf '\x7d' fixed2.data with
          | some n =>
            if 0 < n then
              match parse (⟨fixed2.data.take (n + 1)⟩ ++ "]") with
              | some v => ⟨[1, 2, 3, 4], some v⟩
              | none => ⟨[1, 2, 3, 4], none⟩
            else ⟨[1, 2, 3], none⟩
          | none => ⟨[1, 2, 3], none⟩
      else ⟨[1, 2], none⟩

/-- A chunk's refinement response is accepted only when some repair stage
parsed it and the parsed value is an array (`Array.isArray` check). -/
def repairAccepts (parse : String → Option Bool) (raw : String) : Bool :=
  match (repairPipeline parse raw).value with
  | some true => true
  | _ => false

/-! #### Concrete JSON syntax checker (model of strict `JSON.parse`) -/

def jsonWS (c : Char) : Bool := c = ' ' || c = '\t' || c = '\x0a' || c = '\x0d'

def hexDigit (c : Char) : Bool :=
  c.isDigit || ('a' ≤ c && c ≤ 'f') || ('A' ≤ c && c ≤ 'F')

/-- Consume a JSON string body (after the opening quote). -/
def jvStr (fuel : Nat) (l : List Char) : Option (List Char) :=
  match fuel, l with
  | 0, _ => none
  | _, [] => none
  | fuel + 1, c :: r =>
    if c = '\x22' then some r
    else if c = '\x5c' then
      match r with
      | [] => none
      | e :: r2 =>
        if ['\x22', '\x5c', '/', 'b', 'f', 'n', 'r', 't'].contains e then jvStr fuel r2
        else if e = 'u' then
          match r2 with
          | h1 :: h2 :: h3 :: h4 :: r3 =>
            if hexDigit h1 && hexDigit h2 && hexDigit h3 && hexDigit h4 then jvStr fuel r3
            else none
          | _ => none
        else none
    else if c.val < 32 then none
    else jvStr fuel r

/-- Consume the exponent part of a JSON number (optional). -/
def jvNumExp (l : List Char) : Option (List Char) :=
  match l with
  | c :: r =>
    if c = 'e' ∨ c = 'E' then
      let r1 := match r with
        | s :: r2 => if s = '+' ∨ s = '-' then r2 else s :: r2
        | [] => []
      let ds := r1.takeWhile Char.isDigit
      if ds.isEmpty then none else some (r1.drop ds.length)
    else some l
  | [] => some l

/-- Consume the fraction and exponent parts of a JSON number (optional). -/
def jvNumFrac (l : List Char) : Option (List Char) :=
  match l with
  | '.' :: r =>
    let ds := r.takeWhile Char.isDigit
    if ds.isEmpty then none else jvNumExp (r.drop ds.length)
  | _ => jvNumExp l

/-- Consume a JSON number. -/
def jvNum (l : List Char) : Option (List Char) :=
  let l1 := match l with
    | '-' :: r => r
    | _ => l
  match l1 with
  | c :: r =>
    if c = '0' then jvNumFrac r
    else if c.isDigit then jvNumFrac (r.dropWhile Char.isDigit)
    else none
  | [] => none

/-- Consume a literal keyword tail. -/
def expectLit (pat : String) (l : List Char) : Option (List Char) :=
  if pat.data.isPrefixOf l then some (l.drop pat.length) else none

/-- Parsing mode of the fuelled JSON acceptor: one value, object members
(after the opening brace), or array elements (after the opening bracket). -/
inductive JvMode where
  | val
  | members
  | elems

/-- Fuelled recursive-descent acceptor for JSON values (single structural
recursion on the fuel so that the kernel can evaluate it). -/
def jvRun : Nat → JvMode → List Char → Option (List Char)
  | 0, _, _ => none
  | fuel + 1, JvMode.val, l =>
    (match l.dropWhile jsonWS with
     | [] => none
     | c :: r =>
       if c = '\x7b' then
         match r.dropWhile jsonWS with
         | '\x7d' :: r2 => some r2
         | r2 => jvRun fuel JvMode.members r2
       else if c = '[' then
         match r.dropWhile jsonWS with
         | ']' :: r2 => some r2
         | r2 => jvRun fuel JvMode.elems r2
       else if c = '\x22' then jvStr (r.length + 1) r
       else if c = 't' then expectLit "rue" r
       else if c = 'f' then expectLit "alse" r
       else if c = 'n' then expectLit "ull" r
       else jvNum (c :: r))
  | fuel + 1, JvMode.members, l =>
    (match l with
     | '\x22' :: r =>
       match jvStr (r.length + 1) r with
       | some r2 =>
         match r2.dropWhile jsonWS with
         | ':' :: r3 =>
           match jvRun fuel JvMode.val r3 with
           | some r4 =>
             match r4.dropWhile jsonWS with
             | ',' :: r5 => jvRun fuel JvMode.members (r5.dropWhile jsonWS)
             | '\x7d' :: r5 => some r5
             | _ => none
           | none => none
         | _ => none
       | none => none
     | _ => none)
  | fuel + 1, JvMode.elems, l =>
    (match jvRun fuel JvMode.val l with
     | some r =>
       match r.dropWhile jsonWS with
       | ',' :: r2 => jvRun fuel JvMode.elems r2
       | ']' :: r2 => some r2
       | _ => none
     | none => none)

/-- Executable JSON syntax checker: `none` when the text is not a single
valid JSON value, `some b` when it is, with `b` true exactly when the
top-level value is an array.  Instantiates the abstract parser of
`repairPipeline`. -/
def jsonValid (s : String) : Option Bool :=
  match jvRun (2 * s.length + 8) JvMode.val s.data with
  | some rest =>
    if (rest.dropWhile jsonWS).isEmpty then
      some (match s.data.dropWhile jsonWS with
            | '[' :: _ => true
            | _ => false)
    else none
  | none => none

/-! ### Helper lemmas -/

theorem dropWhile_idem (p : Char → Bool) (l : List Char) :
    (l.dropWhile p).dropWhile p = l.dropWhile p := by
  induction l with
  | nil => rfl
  | cons c rest ih =>
    by_cases h : p c
    · simp [List.dropWhile_cons, h, ih]
    · simp [List.dropWhile_cons, h]

/-- Any `dropWhile` result is a suffix; dually its reverse-based companion is
a prefix. -/
theorem dropWhile_suffix_decomp (p : Char → Bool) (l : List Char) :
    l = l.takeWhile p ++ l.dropWhile p := (List.takeWhile_append_dropWhile p l).symm

/-- Dropping from the right end, defined by reversal. -/
def dropRightWhile (p : Char → Bool) (l : List Char) : List Char :=
  (l.reverse.dropWhile p).reverse

theorem trimChars_eq (l : List Char) :
    trimChars l = dropRightWhile isWS (l.dropWhile isWS) := rfl

theorem dropRightWhile_idem (p : Char → Bool) (l : List Char) :
    dropRightWhile p (dropRightWhile p l) = dropRightWhile p l := by
  simp [dropRightWhile, dropWhile_idem]

theorem dropRightWhile_prefix_decomp (p : Char → Bool) (l : List Char) :
    l = dropRightWhile p l ++ (l.reverse.takeWhile p).reverse := by
  have h : l.reverse = l.reverse.takeWhile p ++ l.reverse.dropWhile p :=
    (List.takeWhile_append_dropWhile p l.reverse).symm
  calc l = l.reverse.reverse := (List.reverse_reverse l).symm
    _ = (l.reverse.takeWhile p ++ l.reverse.dropWhile p).reverse := by rw [← h]
    _ = (l.reverse.dropWhile p).reverse ++ (l.reverse.takeWhile p).reverse := by
        rw [List.reverse_append]
    _ = dropRightWhile p l ++ (l.reverse.takeWhile p).reverse := rfl

theorem head_dropWhile_false (p : Char → Bool) :
    ∀ (l : List Char) (c : Char) (r : List Char), l.dropWhile p = c :: r → p c = false := by
  intro l
  induction l with
  | nil => intro c r h; simp at h
  | cons a rest ih =>
    intro c r h
    by_cases ha : p a
    · exact ih c r (by simpa [List.dropWhile_cons, ha] using h)
    · simp only [List.dropWhile_cons, ha, if_neg] at h
      cases h
      simpa using ha

/-- If `l` has no leading `p`-character, dropping on the left is a no-op. -/
theorem dropWhile_no_lead (p : Char → Bool) (l : List Char)
    (h : ∀ c r, l = c :: r → p c = false) : l.dropWhile p = l := by
  cases l with
  | nil => rfl
  | cons c r => simp [List.dropWhile_cons, h c r rfl]

theorem dropWhile_dropRightWhile (p : Char → Bool) (l : List Char)
    (h : ∀ c r, l = c :: r → p c = false) :
    (dropRightWhile p l).dropWhile p = dropRightWhile p l := by
  apply dropWhile_no_lead
  intro c r hcr
  have hdec := dropRightWhile_prefix_decomp p l
  rw [hcr] at hdec
  exact h c (r ++ (l.reverse.takeWhile p).reverse) (by simpa using hdec)

theorem trimChars_idem (l : List Char) : trimChars (trimChars l) = trimChars l := by
  rw [trimChars_eq, trimChars_eq]
  have hlead : ∀ c r, l.dropWhile isWS = c :: r → isWS c = false :=
    head_dropWhile_false isWS l
  rw [dropWhile_dropRightWhile isWS (l.dropWhile isWS) hlead]
  exact dropRightWhile_idem isWS _

theorem jsTrim_idem (s : String) : jsTrim (jsTrim s) = jsTrim s := by
  simp [jsTrim, trimChars_idem]

/-- Every judgment-vocabulary answer is classified as canonically true or
canonically false (the three regexes of the source partition the trigger
set). -/
theorem judgeVocab_split (s : String) (h : isJudgeVocab s = true) :
    isTrueVocab s = true ∨ isFalseVocab s = true := by
  simp only [isJudgeVocab, Bool.or_eq_true, decide_eq_true_eq, or_assoc] at h
  rcases h with h | h | h | h | h | h | h | h | h | h | h | h | h | h <;>
    first
      | (left; simp only [isTrueVocab, h]; decide)
      | (right; simp only [isFalseVocab, h]; decide)

/-- The Type Inferencer always leaves a concrete type behind. -/
theorem inferQuestionType_concrete (q : Question) :
    (inferQuestionType q).type ≠ QType.unknown := by
  unfold inferQuestionType
  by_cases h0 : q.type ≠ QType.unknown
  · rw [if_pos h0]; exact h0
  · rw [if_neg h0]
    cases hj : isJudgeVocab q.answer <;>
      cases ht : isTrueVocab q.answer <;>
      cases hf : isFalseVocab q.answer <;>
      cases hm : isMultiAns q.answer <;>
      cases hs : isSingleAns q.answer <;>
      cases hl : (10 < q.answer.length || (q.options.isEmpty && 0 < q.answer.length)) <;>
      cases ho : (!q.options.isEmpty) <;>
      simp [hj, ht, hf, hm, hs, hl, ho]

/-- `extractJudgementAnswer` never changes the type. -/
theorem extractJudgementAnswer_type (q : Question) :
    (extractJudgementAnswer q).type = q.type := by
  unfold extractJudgementAnswer
  split_ifs with h1 h2
  · rfl
  · rfl
  · cases judgeMarkSplit q.title.data with
    | none => rfl
    | some p => rfl

/-- A finalized question has a concrete type and a trimmed title. -/
def GoodQ (q : Question) : Prop :=
  q.type ≠ QType.unknown ∧ jsTrim q.title = q.title

theorem finalizeQ_good (q : Question) : GoodQ (finalizeQ q) := by
  constructor
  · show (finalizeQ q).type ≠ QType.unknown
    have : (finalizeQ q).type = (inferQuestionType q).type := by
      simp [finalizeQ, extractJudgementAnswer_type]
    rw [this]
    exact inferQuestionType_concrete q
  · show jsTrim (finalizeQ q).title = (finalizeQ q).title
    simp [finalizeQ, jsTrim_idem]

/-- Machine invariant: every emitted question is good. -/
def InvS (st : PState) : Prop := ∀ q ∈ st.questions, GoodQ q

theorem pushCurrentQuestion_inv (st : PState) (h : InvS st) :
    InvS (pushCurrentQuestion st) := by
  unfold pushCurrentQuestion
  cases hc : st.current with
  | none => exact h
  | some q =>
    intro x hx
    simp only [List.mem_append, List.mem_singleton] at hx
    rcases hx with hx | hx
    · exact h x hx
    · subst hx; exact finalizeQ_good q

theorem pushCurrentQuestion_questions_mono (st : PState) :
    ∃ tail, (pushCurrentQuestion st).questions = st.questions ++ tail := by
  unfold pushCurrentQuestion
  cases st.current with
  | none => exact ⟨[], by simp⟩
  | some q => exact ⟨[finalizeQ q], rfl⟩

/-- A step either leaves the emitted list unchanged or finalizes the
current question exactly as `pushCurrentQuestion` does. -/
theorem stepLine_questions (st : PState) (line : String) :
    (stepLine st line).questions = st.questions ∨
    (stepLine st line).questions = (pushCurrentQuestion st).questions := by
  simp only [stepLine]
  repeat first
    | exact Or.inl rfl
    | exact Or.inr rfl
    | split

theorem stepLine_inv (st : PState) (line : String) (h : InvS st) :
    InvS (stepLine st line) := by
  intro q hq
  rcases stepLine_questions st line with he | he <;> rw [he] at hq
  · exact h q hq
  · exact pushCurrentQuestion_inv st h q hq

theorem foldl_stepLine_inv (lines : List String) (st : PState) (h : InvS st) :
    InvS (lines.foldl stepLine st) := by
  induction lines generalizing st with
  | nil => exact h
  | cons l rest ih => exact ih (stepLine st l) (stepLine_inv st l h)

/-- Every question produced by the heuristic state machine is good:
concrete type and trimmed title. -/
theorem processLines_good (lines : List String) :
    ∀ q ∈ processLines lines, GoodQ q := by
  intro q hq
  have hinv : InvS (lines.foldl stepLine initState) :=
    foldl_stepLine_inv lines initState (by intro x hx; simp [initState] at hx)
  exact pushCurrentQuestion_inv _ hinv q hq

/-! ### Chunker lemmas -/

theorem joinNL_cons_ne (x : String) (w : List String) (h : w ≠ []) :
    joinNL (x :: w) = x ++ "\x0a" ++ joinNL w := by
  cases w with
  | nil => exact absurd rfl h
  | cons z zs => rfl

theorem joinNL_append_single (xs : List String) (y : String) (h : xs ≠ []) :
    joinNL (xs ++ [y]) = joinNL xs ++ "\x0a" ++ y := by
  induction xs with
  | nil => exact absurd rfl h
  | cons x rest ih =>
    by_cases hr : rest = []
    · subst hr; rfl
    · rw [List.cons_append, joinNL_cons_ne x (rest ++ [y]) (by simp [hr]),
        joinNL_cons_ne x rest hr, ih hr]
      apply String.ext
      simp [String.data_append]

theorem joinNL_ne_empty_of_ne_nil {cbuf : List String} (h : joinNL cbuf ≠ "") :
    cbuf ≠ [] := by
  intro hc
  subst hc
  exact h rfl

/-- The prospective buffer of the string-level loop equals the join of the
prospective buffer of the line-level loop. -/
theorem joinNL_pbuf (cbuf : List String) (line : String) :
    joinNL (if joinNL cbuf = "" then [line] else cbuf ++ [line]) =
      joinNL cbuf ++ (if joinNL cbuf = "" then "" else "\x0a") ++ line := by
  by_cases h : joinNL cbuf = ""
  · rw [if_pos h, if_pos h, h]
    show line = "" ++ "" ++ line
    apply String.ext
    simp [String.data_append]
  · rw [if_neg h, if_neg h, joinNL_append_single cbuf line (joinNL_ne_empty_of_ne_nil h)]

/-- The string-level chunk loop is the join of the line-level loop. -/
theorem chunkLoop_eq_L (target : Nat) (rest : List String) :
    ∀ cbuf : List String,
      chunkLoop target (joinNL cbuf) rest = (chunkLoopL target cbuf rest).map joinNL := by
  induction rest with
  | nil =>
    intro cbuf
    simp only [chunkLoop, chunkLoopL]
    split_ifs <;> simp
  | cons line rs ih =>
    intro cbuf
    simp only [chunkLoop, chunkLoopL]
    rw [← joinNL_pbuf cbuf line]
    set pb := (if joinNL cbuf = "" then [line] else cbuf ++ [line]) with hpb
    by_cases hc1 : (joinNL pb).length < target
    · rw [if_pos hc1, if_pos hc1]
      exact ih pb
    · rw [if_neg hc1, if_neg hc1]
      by_cases hc2 :
          (startsNumberedChunk line || decide (3 * target < 2 * (joinNL pb).length)) = true
      · rw [if_pos hc2, if_pos hc2, List.map_append]
        congr 1
        · split_ifs <;> simp
        · have h2 := ih [line]
          simpa [joinNL] using h2
      · rw [if_neg hc2, if_neg hc2]
        exact ih pb

theorem slicesOf_weaken (pre l : List String) (segs : List (List String))
    (h : SlicesOf l segs) : SlicesOf (pre ++ l) segs := by
  cases h with
  | nil => exact SlicesOf.nil _
  | cons pre' seg rest segs' h' =>
    rw [← List.append_assoc]
    exact SlicesOf.cons (pre ++ pre') seg rest segs' h'

theorem chunkLoopL_slices (target : Nat) (rest : List String) :
    ∀ cbuf : List String, SlicesOf (cbuf ++ rest) (chunkLoopL target cbuf rest) := by
  induction rest with
  | nil =>
    intro cbuf
    simp only [chunkLoopL]
    split_ifs
    · have : SlicesOf ([] ++ (cbuf ++ [])) [cbuf] :=
        SlicesOf.cons [] cbuf [] [] (SlicesOf.nil [])
      simpa using this
    · exact SlicesOf.nil _
  | cons line rs ih =>
    intro cbuf
    simp only [chunkLoopL]
    by_cases hb : joinNL cbuf = ""
    · rw [if_pos hb]
      by_cases hc1 : (joinNL [line]).length < target
      · rw [if_pos hc1]
        exact slicesOf_weaken cbuf (line :: rs) _ (ih [line])
      · rw [if_neg hc1]
        by_cases hc2 :
            (startsNumberedChunk line || decide (3 * target < 2 * (joinNL [line]).length)) = true
        · rw [if_pos hc2]
          by_cases he : 0 < (jsTrim (joinNL cbuf)).length
          · rw [if_pos he]
            simpa using SlicesOf.cons [] cbuf (line :: rs) _ (ih [line])
          · rw [if_neg he]
            simpa using slicesOf_weaken cbuf (line :: rs) _ (ih [line])
        · rw [if_neg hc2]
          exact slicesOf_weaken cbuf (line :: rs) _ (ih [line])
    · rw [if_neg hb]
      by_cases hc1 : (joinNL (cbuf ++ [line])).length < target
      · rw [if_pos hc1]
        simpa using ih (cbuf ++ [line])
      · rw [if_neg hc1]
        by_cases hc2 :
            (startsNumberedChunk line ||
              decide (3 * target < 2 * (joinNL (cbuf ++ [line])).length)) = true
        · rw [if_pos hc2]
          by_cases he : 0 < (jsTrim (joinNL cbuf)).length
          · rw [if_pos he]
            simpa using SlicesOf.cons [] cbuf (line :: rs) _ (ih [line])
          · rw [if_neg he]
            simpa using slicesOf_weaken cbuf (line :: rs) _ (ih [line])
        · rw [if_neg hc2]
          simpa using ih (cbuf ++ [line])

/-! ### Whitespace-only input lemmas -/

theorem trimChars_of_allWS (l : List Char) (h : ∀ c ∈ l, isWS c = true) :
    trimChars l = [] := by
  have hd : l.dropWhile isWS = [] := by
    induction l with
    | nil => rfl
    | cons c rest ih =>
      rw [List.dropWhile_cons, if_pos (h c (by simp))]
      exact ih (fun x hx => h x (by simp [hx]))
  simp [trimChars, hd]

theorem jsTrim_of_allWS (s : String) (h : ∀ c ∈ s.data, isWS c = true) :
    jsTrim s = "" := by
  simp [jsTrim, trimChars_of_allWS s.data h]

theorem splitNL_allWS (l : List Char) (h : ∀ c ∈ l, isWS c = true) :
    ∀ p ∈ splitNL l, ∀ c ∈ p, isWS c = true := by
  induction l with
  | nil =>
    intro p hp
    simp only [splitNL, List.mem_singleton] at hp
    subst hp
    intro c hc
    simp at hc
  | cons a rest ih =>
    have hrest : ∀ c ∈ rest, isWS c = true := fun x hx => h x (List.mem_cons_of_mem a hx)
    have ha0 : isWS a = true := h a (List.mem_cons_self a rest)
    have iha := ih hrest
    intro p hp
    cases hs : splitNL rest with
    | nil =>
      simp only [splitNL, hs, List.mem_singleton] at hp
      subst hp
      intro c hc
      simp only [List.mem_singleton] at hc
      subst hc
      exact ha0
    | cons q qs =>
      simp only [splitNL, hs] at hp
      rw [hs] at iha
      by_cases hnl : a = '\x0a'
      · rw [if_pos hnl] at hp
        rcases List.mem_cons.mp hp with hp | hp
        · subst hp; intro c hc; simp at hc
        · exact iha p hp
      · rw [if_neg hnl] at hp
        rcases List.mem_cons.mp hp with hp | hp
        · subst hp
          intro c hc
          rcases List.mem_cons.mp hc with hc | hc
          · subst hc; exact ha0
          · exact iha q (List.mem_cons_self q qs) c hc
        · exact iha p (List.mem_cons_of_mem q hp)

theorem chunkLoop_allWS (target : Nat) (lines : List String) :
    ∀ cur : String, (∀ l ∈ lines, ∀ c ∈ l.data, isWS c = true) →
      (∀ c ∈ cur.data, isWS c = true) → chunkLoop target cur lines = [] := by
  induction lines with
  | nil =>
    intro cur _ hcur
    simp only [chunkLoop]
    rw [jsTrim_of_allWS cur hcur]
    simp
  | cons line rs ih =>
    intro cur hl hcur
    have hline : ∀ c ∈ line.data, isWS c = true := hl line (List.mem_cons_self line rs)
    have hrs : ∀ l ∈ rs, ∀ c ∈ l.data, isWS c = true :=
      fun l hx => hl l (List.mem_cons_of_mem line hx)
    simp only [chunkLoop]
    set pros := cur ++ (if cur = "" then "" else "\x0a") ++ line with hpros_def
    have hpros : ∀ c ∈ pros.data, isWS c = true := by
      intro c hc
      rw [hpros_def] at hc
      simp only [String.data_append, List.mem_append] at hc
      rcases hc with (hc | hc) | hc
      · exact hcur c hc
      · by_cases hx : cur = ""
        · rw [if_pos hx] at hc
          simp at hc
        · rw [if_neg hx] at hc
          rw [show ("\x0a" : String).data = ['\x0a'] from rfl] at hc
          simp only [List.mem_singleton] at hc
          subst hc
          rfl
      · exact hline c hc
    by_cases hc1 : pros.length < target
    · rw [if_pos hc1]
      exact ih pros hrs hpros
    · rw [if_neg hc1]
      by_cases hc2 : (startsNumberedChunk line || decide (3 * target < 2 * pros.length)) = true
      · rw [if_pos hc2, jsTrim_of_allWS cur hcur]
        simpa using ih line hrs hline
      · rw [if_neg hc2]
        exact ih pros hrs hpros

/-- Whitespace-only text produces no chunks at any target size. -/
theorem splitTextIntoChunks_allWS (text : String) (target : Nat)
    (h : ∀ c ∈ text.data, isWS c = true) : splitTextIntoChunks text target = [] := by
  unfold splitTextIntoChunks
  apply chunkLoop_allWS
  · intro l hl c hc
    simp only [splitLines, List.mem_map] at hl
    obtain ⟨p, hp, rfl⟩ := hl
    exact splitNL_allWS text.data h p hp c hc
  · intro c hc
    simp at hc

/-! ### Orchestrator indexing lemma -/

theorem chunkResults_getElem? (refine : Nat → Nat → Option (List AIQuestion))
    (chunks : List String) (i : Nat) :
    (chunkResults refine chunks)[i]? =
      (chunks[i]?).map (fun c => (processChunk refine i c).1) := by
  unfold chunkResults
  rw [List.getElem?_map, List.getElem?_enum]
  cases chunks[i]? <;> rfl

/-- A refinement oracle that always fails (both attempts of every chunk). -/
def noRefine : Nat → Nat → Option (List AIQuestion) := fun _ _ => none

/-- The content produced by the stage-2 repair (full-width-quote fix and
bare-key quoting applied to the fence-stripped content). -/
def stage2Content (raw : String) : String := quoteBareKeys (fixQuotes (stripFences raw))

/-! ### Claim theorems -/

/-- C8: finalizing a question whose title is `地球是平的(×)`, whose type is
`Judgment` (preset by the judgment-mark suffix) and which has no captured
answer yields the canonical answer `错误` and the stripped, trimmed title
`地球是平的`; end to end, the single input line `地球是平的(×)` produces
exactly that question. -/
theorem claim_C8_judgment_extraction :
    finalizeQ ⟨1, "地球是平的(×)", [], "", QType.judgment⟩ =
      ⟨1, "地球是平的", [], "错误", QType.judgment⟩ ∧
    processLines ["地球是平的(×)"] =
      [⟨1, "地球是平的", [], "错误", QType.judgment⟩] := by
  constructor <;> decide

/-- C9: the Type Inferencer is idempotent.  On a question whose type is
already concrete it is the identity (the source returns immediately when
`q.type` is set and differs from `未知`), and applying it twice always
equals applying it once. -/
theorem claim_C9_idempotent :
    (∀ q : Question, q.type ≠ QType.unknown → inferQuestionType q = q) ∧
    (∀ q : Question, inferQuestionType (inferQuestionType q) = inferQuestionType q) := by
  have h1 : ∀ q : Question, q.type ≠ QType.unknown → inferQuestionType q = q := by
    intro q h
    unfold inferQuestionType
    rw [if_pos h]
  exact ⟨h1, fun q => h1 _ (inferQuestionType_concrete q)⟩

/-- C9 witness: a concretely typed question on which the inferencer is a no-op. -/
theorem claim_C9_witness :
    (⟨1, "t", [], "A", QType.single⟩ : Question).type ≠ QType.unknown ∧
    inferQuestionType ⟨1, "t", [], "A", QType.single⟩ = ⟨1, "t", [], "A", QType.single⟩ :=
  ⟨by decide, claim_C9_idempotent.1 _ (by decide)⟩

/-- C2: on a question whose type is `Unknown`, the Type Inferencer acts by
the first matching rule of the claim's ordered rule list (`inferTypeSpec` is
written from the claim's sentences; `inferQuestionType` from the source). -/
theorem claim_C2_infer_rules (q : Question) (h : q.type = QType.unknown) :
    inferQuestionType q = inferTypeSpec q := by
  unfold inferQuestionType inferTypeSpec
  rw [if_neg (by simp [h])]
  by_cases hj : isJudgeVocab q.answer = true
  · rw [if_pos hj, if_pos hj]
    by_cases ht : isTrueVocab q.answer = true
    · rw [if_pos ht, if_pos ht]
    · rcases judgeVocab_split q.answer hj with ht' | hf
      · exact absurd ht' ht
      · rw [if_neg ht, if_neg ht, if_pos hf]
  · rw [if_neg hj, if_neg hj]

/-- C2 witness: a concrete Unknown-typed question on which the code and the
spec rule list agree. -/
theorem claim_C2_witness :
    (⟨1, "t", [], "abc", QType.unknown⟩ : Question).type = QType.unknown ∧
    inferQuestionType ⟨1, "t", [], "abc", QType.unknown⟩ =
      inferTypeSpec ⟨1, "t", [], "abc", QType.unknown⟩ :=
  ⟨rfl, claim_C2_infer_rules _ rfl⟩

/-- C10: every question emitted by the heuristic state machine has one of
the four concrete types, never `Unknown`: the finalize routine's type
inference resolves every question before it is appended. -/
theorem claim_C10_concrete_types (lines : List String) (q : Question)
    (h : q ∈ processLines lines) :
    q.type = QType.judgment ∨ q.type = QType.multi ∨ q.type = QType.single ∨
      q.type = QType.short := by
  have hne := (processLines_good lines q h).1
  cases hq : q.type with
  | unknown => exact absurd hq hne
  | judgment => exact Or.inl rfl
  | multi => exact Or.inr (Or.inl rfl)
  | single => exact Or.inr (Or.inr (Or.inl rfl))
  | short => exact Or.inr (Or.inr (Or.inr rfl))

/-- C10 witness: a concrete run whose emitted question has a concrete type. -/
theorem claim_C10_witness :
    (⟨1, "", [], "", QType.short⟩ : Question) ∈ processLines ["1."] ∧
    ((⟨1, "", [], "", QType.short⟩ : Question).type = QType.judgment ∨
     (⟨1, "", [], "", QType.short⟩ : Question).type = QType.multi ∨
     (⟨1, "", [], "", QType.short⟩ : Question).type = QType.single ∨
     (⟨1, "", [], "", QType.short⟩ : Question).type = QType.short) :=
  ⟨by decide, claim_C10_concrete_types ["1."] _ (by decide)⟩

/-- C1 counterexample: the input line `1.` (a bare question-number marker)
is accepted as a new question whose title becomes empty after the marker is
stripped; no non-emptiness check exists in the finalize routine, so the
emitted question has an empty title, refuting the claimed invariant. -/
theorem claim_C1_counterexample :
    processLines ["1."] = [⟨1, "", [], "", QType.short⟩] ∧
    (processLines ["1."]).map Question.title = [""] := by
  constructor <;> decide

/-- C1 amended: every question emitted by the heuristic state machine has a
trimmed title (`title.trim()` is applied by the finalize routine), though
that title may be empty; the degraded placeholder questions of the AI path
always carry a non-empty title. -/
theorem claim_C1_amended (lines : List String) (q : Question)
    (h : q ∈ processLines lines) :
    jsTrim q.title = q.title ∧ ∀ c : String, (degradedQuestion c).title ≠ "" := by
  refine ⟨(processLines_good lines q h).2, ?_⟩
  intro c hc
  have hlen : (degradedQuestion c).title.length = 0 := by rw [hc]; rfl
  rw [show (degradedQuestion c).title =
        "【解析失败片段】" ++ (⟨c.data.take 50⟩ : String) ++ "..." from rfl,
      String.length_append, String.length_append] at hlen
  have h8 : ("【解析失败片段】" : String).length = 8 := rfl
  omega

/-- C1 witness: the concrete run of the amended statement. -/
theorem claim_C1_witness :
    (⟨1, "", [], "", QType.short⟩ : Question) ∈ processLines ["1."] ∧
    (jsTrim (⟨1, "", [], "", QType.short⟩ : Question).title =
        (⟨1, "", [], "", QType.short⟩ : Question).title ∧
      ∀ c : String, (degradedQuestion c).title ≠ "") :=
  ⟨by decide, claim_C1_amended ["1."] _ (by decide)⟩

/-- C3: when both refinement attempts of chunk `i` fail, the orchestrator
does not abort: the chunk contributes exactly one degraded question, of type
`简答题` (ShortAnswer), whose title carries the failure marker and whose
answer embeds the full chunk text; the result is still the in-order merge of
all per-chunk batches (the model is total in the oracle, so no exception
reaches the caller). -/
theorem claim_C3_degraded (refine : Nat → Nat → Option (List AIQuestion))
    (text : String) (i : Nat) (c : String)
    (hc : (splitTextIntoChunks text 1500)[i]? = some c)
    (h0 : refine i 0 = none) (h1 : refine i 1 = none) :
    (chunkResults refine (splitTextIntoChunks text 1500))[i]? = some [degradedQuestion c] ∧
    parseWithAI refine text = (chunkResults refine (splitTextIntoChunks text 1500)).flatten ∧
    (degradedQuestion c).type = "简答题" ∧
    (∃ t, (degradedQuestion c).title = "【解析失败片段】" ++ t) ∧
    (∃ p, (degradedQuestion c).answer = p ++ c) := by
  refine ⟨?_, rfl, rfl, ⟨(⟨c.data.take 50⟩ : String) ++ "...", ?_⟩,
    ⟨"AI 解析失败，请手动检查原始内容：\x0a", rfl⟩⟩
  · rw [chunkResults_getElem?, hc]
    simp [processChunk, h0, h1]
  · show "【解析失败片段】" ++ (⟨c.data.take 50⟩ : String) ++ "..." =
      "【解析失败片段】" ++ ((⟨c.data.take 50⟩ : String) ++ "...")
    rw [String.append_assoc]

/-- C3 witness: a one-chunk document whose only chunk fails both attempts. -/
theorem claim_C3_witness :
    (splitTextIntoChunks "1" 1500)[0]? = some "1" ∧
    ((chunkResults noRefine (splitTextIntoChunks "1" 1500))[0]? =
        some [degradedQuestion "1"] ∧
      parseWithAI noRefine "1" = (chunkResults noRefine (splitTextIntoChunks "1" 1500)).flatten ∧
      (degradedQuestion "1").type = "简答题" ∧
      (∃ t, (degradedQuestion "1").title = "【解析失败片段】" ++ t) ∧
      (∃ p, (degradedQuestion "1").answer = p ++ "1")) :=
  ⟨by decide, claim_C3_degraded noRefine "1" 0 "1" (by decide) rfl rfl⟩

/-- C7: the refinement oracle is consulted at most twice per chunk: the
trace of attempt indices is `[0]` when the initial attempt succeeds and
exactly `[0, 1]` otherwise — never more than two entries, and never an
attempt index beyond the single retry. -/
theorem claim_C7_retry_twice (refine : Nat → Nat → Option (List AIQuestion))
    (i : Nat) (c : String) :
    (processChunk refine i c).2 = (if (refine i 0).isSome then [0] else [0, 1]) ∧
    (processChunk refine i c).2.length ≤ 2 ∧
    (∀ a ∈ (processChunk refine i c).2, a < 2) := by
  cases h0 : refine i 0 <;> cases h1 : refine i 1 <;>
    simp [processChunk, h0, h1]

/-- C7 witness: with an always-failing oracle, the trace is exactly two
attempts. -/
theorem claim_C7_witness :
    (processChunk noRefine 0 "x").2 = [0, 1] := by
  have h := (claim_C7_retry_twice noRefine 0 "x").1
  simpa using h

/-- C5 counterexample: the whitespace-only input `" "` does not fail the
extraction: the empty-input guard tests JavaScript falsiness (`!fullText`),
which only the empty string satisfies, and the chunker then discards the
blank buffer, so the extraction succeeds with an empty question list. -/
theorem claim_C5_counterexample :
    (∀ c ∈ (" " : String).data, isWS c = true) ∧
    uploadAIExtract noRefine " " = Except.ok [] := by
  constructor
  · decide
  · rfl

/-- C5 amended: the fatal empty-input error is raised exactly when the
extracted text is the empty string; a non-empty whitespace-only text instead
produces no chunks and succeeds with an empty question list, and no other
input raises the empty-input error. -/
theorem claim_C5_amended (refine : Nat → Nat → Option (List AIQuestion)) (text : String) :
    (uploadAIExtract refine text = Except.error "文档内容为空" ↔ text = "") ∧
    (text ≠ "" → (∀ c ∈ text.data, isWS c = true) →
      uploadAIExtract refine text = Except.ok []) := by
  constructor
  · constructor
    · intro h
      by_contra hne
      simp only [uploadAIExtract, if_neg hne] at h
      exact Except.noConfusion h
    · intro h
      subst h
      rfl
  · intro hne hws
    simp only [uploadAIExtract, if_neg hne, parseWithAI,
      splitTextIntoChunks_allWS text 1500 hws]
    rfl

/-- C5 witness: the whitespace-only input of the amended statement. -/
theorem claim_C5_witness :
    ¬ (" " : String) = "" ∧ uploadAIExtract noRefine " " = Except.ok [] :=
  ⟨by decide, (claim_C5_amended noRefine " ").2 (by decide) (by decide)⟩

/-- C6: the chunker splits only at line boundaries — its output is the
newline-join of pairwise-disjoint contiguous slices of the source lines, in
source order — and its accumulation behaviour is exactly: append while the
prospective buffer is below the target size; at the threshold, close the
buffer before the line exactly when the line starts a numbered question or
the prospective buffer exceeds 1.5 times the target; a whitespace-only final
buffer is discarded and a non-blank one emitted. -/
theorem claim_C6_chunker (text : String) (target : Nat) :
    (∃ segs : List (List String),
      splitTextIntoChunks text target = segs.map joinNL ∧
      SlicesOf (splitLines text) segs) ∧
    (∀ cur line rest, chunkLoop target cur (line :: rest) =
      if (cur ++ (if cur = "" then "" else "\x0a") ++ line).length < target then
        chunkLoop target (cur ++ (if cur = "" then "" else "\x0a") ++ line) rest
      else if startsNumberedChunk line ||
          3 * target < 2 * (cur ++ (if cur = "" then "" else "\x0a") ++ line).length then
        (if 0 < (jsTrim cur).length then [cur] else []) ++ chunkLoop target line rest
      else chunkLoop target (cur ++ (if cur = "" then "" else "\x0a") ++ line) rest) ∧
    (∀ cur, chunkLoop target cur [] = if 0 < (jsTrim cur).length then [cur] else []) := by
  refine ⟨⟨chunkLoopL target [] (splitLines text), ?_, ?_⟩,
    fun cur line rest => rfl, fun cur => rfl⟩
  · have h := chunkLoop_eq_L target (splitLines text) []
    simpa [splitTextIntoChunks, joinNL] using h
  · simpa using chunkLoopL_slices target (splitLines text) []

/-- C4 counterexample: the content `[{"t": 1}, oops]` (braces written as
they are in the string) fails stage 1 and stage 2, but since it starts with
`[` and already ends with `]`, the bracket-condition branch is skipped and
stage 4 is never attempted — even though truncating at the last closing
brace and closing the array would parse successfully. -/
theorem claim_C4_counterexample :
    (repairPipeline jsonValid "[\x7b\x22t\x22: 1\x7d, oops]").attempted = [1, 2] ∧
    (repairPipeline jsonValid "[\x7b\x22t\x22: 1\x7d, oops]").value = none ∧
    4 ∉ (repairPipeline jsonValid "[\x7b\x22t\x22: 1\x7d, oops]").attempted ∧
    jsonValid "[\x7b\x22t\x22: 1\x7d]" = some true := by
  refine ⟨?_, ?_, ?_, ?_⟩ <;> decide

/-- C4 amended: the repair pipeline attempts stages in the order 1, 2, 3, 4,
each only after the previous parse failed, but stages 3 and 4 are gated by
the bracket condition: stage 4 is attempted exactly when stages 1 and 2
failed, the trimmed stage-2 content starts with `[` and does not end with
`]`, the stage-3 parse (array closed) also failed, and the closed content
contains a closing brace at positive index; a value that never parses, or
parses to a non-array, makes the chunk a failed chunk. -/
theorem claim_C4_amended (parse : String → Option Bool) (raw : String) :
    ((repairPipeline parse raw).attempted = [1] ↔ (parse (stripFences raw)).isSome = true) ∧
    (4 ∈ (repairPipeline parse raw).attempted ↔
      (parse (stripFences raw) = none ∧ parse (stage2Content raw) = none ∧
       (strStartsWith (jsTrim (stage2Content raw)) "[" ∧
        ¬ strEndsWith (jsTrim (stage2Content raw)) "]") ∧
       parse (stage2Content raw ++ "]") = none ∧
       (∃ n, lastIdxOf '\x7d' (stage2Content raw ++ "]").data = some n ∧ 0 < n))) ∧
    (repairAccepts parse raw = true ↔ (repairPipeline parse raw).value = some true) := by
  simp only [repairPipeline, stage2Content, repairAccepts]
  cases hp1 : parse (stripFences raw) with
  | some v => cases v <;> simp [hp1]
  | none =>
    cases hp2 : parse (quoteBareKeys (fixQuotes (stripFences raw))) with
    | some v => cases v <;> simp [hp1, hp2]
    | none =>
      by_cases hbr : strStartsWith (jsTrim (quoteBareKeys (fixQuotes (stripFences raw)))) "[" ∧
          ¬ strEndsWith (jsTrim (quoteBareKeys (fixQuotes (stripFences raw)))) "]"
      · rw [if_pos hbr]
        cases hp3 : parse (quoteBareKeys (fixQuotes (stripFences raw)) ++ "]") with
        | some v => cases v <;> simp [hp3, hbr]
        | none =>
          cases hlb :
              lastIdxOf '\x7d' (quoteBareKeys (fixQuotes (stripFences raw)) ++ "]").data with
          | none => simp [hlb, hp3, hbr]
          | some n =>
            dsimp only
            by_cases hn : 0 < n
            · rw [if_pos hn]
              cases hp4 : parse (({ data :=
                    (quoteBareKeys (fixQuotes (stripFences raw)) ++ "]").data.take (n + 1) } :
                    String) ++ "]") with
              | some v => cases v <;> simp [hp3, hbr, hlb, hn]
              | none => simp [hp3, hbr, hlb, hn]
            · rw [if_neg hn]
              simp [hlb, hp3, hbr, hn]
      · rw [if_neg hbr]
        simp [hbr, hp2]
        intro hA hB _
        exact absurd ⟨hA, by simp [hB]⟩ hbr

/-- C4 witness: a truncated-array content for which stage 1 does not settle
the pipeline. -/
theorem claim_C4_witness :
    (repairPipeline jsonValid "[1, 2").attempted ≠ [1] := by
  intro hc
  have h := ((claim_C4_amended jsonValid "[1, 2").1).mp hc
  revert h
  decide

end OnlineTest
